import Mathlib

/-!
Verification of the threshold-crossing / cohort aggregation pipeline of the
data-engineering repository (three analysis scripts).  The data model and the
operations are shallowly embedded from the source: SQL aggregation queries
become pure functions over lists of rows, dates become integers (script 1) or
explicit calendar triples (script 2), and fallible Python code returns Option.
-/

namespace DataEng

/-! ## Script 1 definitions: rolling-window activation and success dates

A row of the `conversations` table for one account: a calendar day (modelled
as an integer day number), a success flag, and a numeric total (a count of
conversations, hence a natural number). -/

structure Conv1 where
  date : Int
  successful : Bool
  total : Nat
deriving DecidableEq, Repr

/-- `daily_conversations`: SUM(total) of the account's rows on day `d`
(0 when the account has no rows that day). -/
def dailyTotal (convs : List Conv1) (d : Int) : Nat :=
  ((convs.filter (fun c => c.date = d)).map (fun c => c.total)).sum

/-- `three_day_conversations`: the trailing 3-day window total ending at `d`
(`dc1.daily_total + COALESCE(dc2, 0) + COALESCE(dc3, 0)` with the two LEFT
JOINs at `d - 1` and `d - 2`). -/
def threeDaySum (convs : List Conv1) (d : Int) : Nat :=
  dailyTotal convs d + dailyTotal convs (d - 1) + dailyTotal convs (d - 2)

/-- `first_activation`: MIN(date) over the account's event days whose trailing
3-day total is at least 350 (the SQL computes window rows only for days on
which the account has at least one conversation row). -/
def activationDate (convs : List Conv1) : Option Int :=
  ((convs.map (fun c => c.date)).filter (fun d => 350 ≤ threeDaySum convs d)).min?

/-- The §8 scenario fixture: daily totals 100 on each of days 1,2,3,4. -/
def c7Fixture : List Conv1 :=
  [⟨1, true, 100⟩, ⟨2, true, 100⟩, ⟨3, true, 100⟩, ⟨4, true, 100⟩]

/-! ### Second pass: per-company success date within the 60-day horizon

`fetch_successful_conversations` iterates over the company rows; for each it
queries the successful conversations dated between the activation date and
activation date + 60, forms the running cumulative sum ordered by date, takes
MIN(date) among rows whose cumulative total reaches 500, shifts it by
`adjust[idx]` days, and returns MAX(cum_total) among those rows.  An empty
qualifying set yields a NULL/NULL row; an out-of-range `adjust[idx]` (or an
empty company set, through `pd.concat([])`) raises, is caught, and the whole
batch becomes `None`. -/

/-- A row of the companies dataframe: company id and activation date. -/
structure CompanyRow where
  id : Nat
  activation : Int
deriving DecidableEq, Repr

/-- One result row: the (possibly NULL) shifted success date and the
(possibly NULL) reported cumulative total. -/
structure SuccessRow where
  success_date : Option Int
  cum_total : Option Nat
deriving DecidableEq, Repr

/-- The successful conversations inside the 60-day horizon starting at the
activation date (`successful = TRUE AND date BETWEEN activation AND
activation + 60`). -/
def horizonConvs (convs : List Conv1) (act : Int) : List Conv1 :=
  convs.filter (fun c => c.successful ∧ act ≤ c.date ∧ c.date ≤ act + 60)

/-- The cumulative successful-conversation total through day `d` (the value of
the running window sum at the last row dated `≤ d`). -/
def cumThrough (convs : List Conv1) (act d : Int) : Nat :=
  (((horizonConvs convs act).filter (fun c => c.date ≤ d)).map (fun c => c.total)).sum

/-- MIN(date) among horizon rows whose cumulative total has reached 500: the
raw first-crossing date, before the per-position day adjustment. -/
def rawCrossing (convs : List Conv1) (act : Int) : Option Int :=
  (((horizonConvs convs act).map (fun c => c.date)).filter
    (fun d => 500 ≤ cumThrough convs act d)).min?

/-- The total over the whole horizon — the value of MAX(cum_total) whenever
any row reaches 500 (totals are nonnegative, so the running sum is monotone
and its maximum is the full horizon sum). -/
def horizonTotal (convs : List Conv1) (act : Int) : Nat :=
  ((horizonConvs convs act).map (fun c => c.total)).sum

/-- The single-company query result: NULLs when no cumulative total reaches
500, otherwise the raw crossing date shifted by `days` together with the
maximal cumulative total. -/
def queryResult (convs : List Conv1) (act : Int) (days : Int) : SuccessRow :=
  match rawCrossing convs act with
  | none => ⟨none, none⟩
  | some d => ⟨some (d + days), some (horizonTotal convs act)⟩

/-- The ad hoc per-position day adjustment vector (`adjust = [0,-25,65,165]`). -/
def adjustList : List Int := [0, -25, 65, 165]

/-- The per-company loop of `fetch_successful_conversations`, carrying the
positional index used to look up the adjustment; a position beyond the end of
`adjustList` raises `IndexError`, which the surrounding handler turns into
`none` for the whole batch. -/
def successGo (convs : Nat → List Conv1) : Nat → List CompanyRow →
    Option (List (Nat × SuccessRow))
  | _, [] => some []
  | idx, c :: rest =>
    (adjustList[idx]?).bind fun days =>
      (successGo convs (idx + 1) rest).map fun rs =>
        (c.id, queryResult (convs c.id) c.activation days) :: rs

/-- `fetch_successful_conversations`: runs the loop from index 0; an empty
result list makes `pd.concat(results)` raise, so the batch is `none` then as
well. -/
def fetchSuccessfulConversations (companies : List CompanyRow)
    (convs : Nat → List Conv1) : Option (List (Nat × SuccessRow)) :=
  (successGo convs 0 companies).bind fun rows =>
    if rows = [] then none else some rows

/-- The downstream filter of `main`: `pd.to_datetime` followed by keeping the
rows whose success date satisfies the year predicate (`dt.year == 2023`); a
NULL date never satisfies it and the row is dropped, not an error. -/
def filterByYear (rows : List (Nat × SuccessRow)) (inYear : Int → Bool) :
    List (Nat × SuccessRow) :=
  rows.filter (fun r => ((r.2.success_date.map inYear).getD false))

/-- A concrete three-company batch: companies 1 and 2 have no conversations,
company 3 reaches 500 successful conversations on its activation day. -/
def batchCompanies : List CompanyRow := [⟨1, 0⟩, ⟨2, 0⟩, ⟨3, 0⟩]

/-- The conversation log for `batchCompanies`. -/
def batchConvs : Nat → List Conv1 :=
  fun id => if id = 3 then [⟨0, true, 500⟩] else []

/-- The resulting batch rows: company 3 sits at position 2, so its raw
crossing date 0 is shifted by `adjust[2] = 65` days. -/
def batchRows : List (Nat × SuccessRow) :=
  [(1, ⟨none, none⟩), (2, ⟨none, none⟩), (3, ⟨some 65, some 500⟩)]

/-! ## Script 2 definitions: monthly conversion-success rate

`2_script.py` computes, per month, the share of recently closed companies
whose successful-conversation total (plus a hard-coded bonus) reaches 1500. -/

/-- A row of the `conversations` table as script 2 sees it: account, calendar
month and year of the date, success flag and numeric total. -/
structure Conv2 where
  account_id : Nat
  month : Nat
  year : Nat
  successful : Bool
  total : Int
deriving DecidableEq, Repr

/-- The hard-coded `BONUSES` lookup: month -> company -> bonus, defaulting
to 0. -/
def bonuses (month cid : Nat) : Int :=
  if month = 3 ∧ cid = 10 then 80
  else if month = 4 ∧ cid = 11 then 100
  else if month = 4 ∧ cid = 3 then 260
  else if month = 5 ∧ cid = 12 then 600
  else if month = 5 ∧ cid = 11 then 400
  else if month = 6 ∧ cid = 12 then 350
  else if month = 7 ∧ cid = 13 then 200
  else if month = 8 ∧ cid = 15 then 400
  else 0

/-- `SELECT company_id, account_identifier FROM company_identifiers WHERE
company_id IN company_ids`. -/
def accountMapping (idents : List (Nat × Nat)) (companyIds : List Nat) :
    List (Nat × Nat) :=
  idents.filter (fun p => p.1 ∈ companyIds)

/-- The conversation rows matched by the script-2 query: account among the
mapped accounts, successful, and dated in the requested month and year. -/
def matchedConvs (convs : List Conv2) (accounts : List Nat) (m y : Nat) :
    List Conv2 :=
  convs.filter (fun c =>
    c.account_id ∈ accounts ∧ c.successful ∧ c.month = m ∧ c.year = y)

/-- `GROUP BY account_id` with `SUM(total)`: one row per distinct matched
account. -/
def groupedRows (convs : List Conv2) (accounts : List Nat) (m y : Nat) :
    List (Nat × Int) :=
  ((matchedConvs convs accounts m y).map (fun c => c.account_id)).dedup.map
    (fun a => (a, (((matchedConvs convs accounts m y).filter
      (fun c => c.account_id = a)).map (fun c => c.total)).sum))

/-- Python-dict insertion: update the existing key in place or append. -/
def dictInsert (d : List (Nat × Int)) (k : Nat) (v : Int) : List (Nat × Int) :=
  if d.any (fun p => p.1 = k) then
    d.map (fun p => if p.1 = k then (k, v) else p)
  else d ++ [(k, v)]

/-- The nested mapping loop of `get_successful_conversations_for_companies`:
`result[company_id] = total + bonus` for each mapping row whose account has a
grouped conversation row. -/
def buildResult (mapping : List (Nat × Nat)) (rows : List (Nat × Int))
    (m : Nat) : List (Nat × Int) :=
  mapping.foldl (fun acc p =>
    rows.foldl (fun acc2 r =>
      if p.2 = r.1 then dictInsert acc2 p.1 (r.2 + bonuses m p.1) else acc2) acc) []

/-- `get_successful_conversations_for_companies` (the data-source,
bonus-applying aggregation).  An empty company set short-circuits to the empty
dict.  With a nonempty company set but an empty identifier mapping, the second
query interpolates the empty tuple and executes `WHERE account_id IN ()` — a
PostgreSQL syntax error that psycopg2 raises and nothing catches — modelled as
`none`. -/
def getSuccessfulConversationsForCompanies (companyIds : List Nat)
    (idents : List (Nat × Nat)) (convs : List Conv2) (m y : Nat) :
    Option (List (Nat × Int)) :=
  if companyIds = [] then some []
  else if accountMapping idents companyIds = [] then none
  else
    some (buildResult (accountMapping idents companyIds)
      (groupedRows convs ((accountMapping idents companyIds).map (fun p => p.2)) m y) m)

/-- The per-month body of `main`: successful companies are the dict entries
with value at least 1500; the rate is their share of all dict entries, times
100, and 0 for an empty dict.  `main` has no handler, so the empty-mapping
exception propagates (`none`) and the run crashes instead of producing a
rate. -/
def monthlyPercentage (companyIds : List Nat) (idents : List (Nat × Nat))
    (convs : List Conv2) (m y : Nat) : Option ℚ :=
  (getSuccessfulConversationsForCompanies companyIds idents convs m y).map
    (fun sc =>
      let active := sc.map (fun p => p.1)
      let succCompanies := (sc.filter (fun p => 1500 ≤ p.2)).map (fun p => p.1)
      if active = [] then 0
      else ((succCompanies.length : ℚ) / (active.length : ℚ)) * 100)

/-! ### Script 2: the cohort date window of `get_recently_closed_companies`

Dates are calendar triples; `timedelta` day arithmetic is day-by-day stepping
through the Gregorian calendar. -/

/-- Gregorian leap-year rule. -/
def isLeap (y : Nat) : Bool :=
  y % 4 = 0 && (!(y % 100 = 0) || y % 400 = 0)

/-- Days in a month of a given year. -/
def daysInMonth (y m : Nat) : Nat :=
  if m = 2 then (if isLeap y then 29 else 28)
  else if m = 4 ∨ m = 6 ∨ m = 9 ∨ m = 11 then 30
  else 31

/-- A calendar date. -/
structure Date where
  year : Nat
  month : Nat
  day : Nat
deriving DecidableEq, Repr

/-- The day after a date. -/
def nextDay (dt : Date) : Date :=
  if dt.day < daysInMonth dt.year dt.month then ⟨dt.year, dt.month, dt.day + 1⟩
  else if dt.month < 12 then ⟨dt.year, dt.month + 1, 1⟩
  else ⟨dt.year + 1, 1, 1⟩

/-- `date + timedelta(days=n)`. -/
def addDays (dt : Date) : Nat → Date
  | 0 => dt
  | n + 1 => nextDay (addDays dt n)

/-- The day before a date. -/
def prevDay (dt : Date) : Date :=
  if 1 < dt.day then ⟨dt.year, dt.month, dt.day - 1⟩
  else if 1 < dt.month then ⟨dt.year, dt.month - 1, daysInMonth dt.year (dt.month - 1)⟩
  else ⟨dt.year - 1, 12, daysInMonth (dt.year - 1) 12⟩

/-- `date - timedelta(days=n)`. -/
def subDays (dt : Date) : Nat → Date
  | 0 => dt
  | n + 1 => prevDay (subDays dt n)

/-- Lexicographic order on dates (`BETWEEN` comparison). -/
def dateLe (a b : Date) : Prop :=
  a.year < b.year ∨ (a.year = b.year ∧
    (a.month < b.month ∨ (a.month = b.month ∧ a.day ≤ b.day)))

/-- The date range computed by `get_recently_closed_companies`:
start = first day of the preceding month (December of the prior year for
January); end = `datetime(year, month, 1) + 31 days`, pulled back by its own
day-of-month and clamped to 31. -/
def closedWindow (month year : Nat) : Date × Date :=
  let start : Date := if month ≠ 1 then ⟨year, month - 1, 1⟩ else ⟨year - 1, 12, 1⟩
  let e1 := addDays ⟨year, month, 1⟩ 31
  let endD : Date := ⟨year, month, min 31 (subDays e1 e1.day).day⟩
  (start, endD)

/-! ## Script 3 definitions: cohort revenue matrix -/

/-- A `company` row as script 3 sees it (close-date split into year and
month). -/
structure CompanyRec where
  id : Nat
  close_year : Nat
  close_month : Nat
deriving DecidableEq, Repr

/-- A `company_identifiers` row: company id and stripe id. -/
structure IdentRec where
  company_id : Nat
  stripe_id : Nat
deriving DecidableEq, Repr

/-- A `stripe_invoice` row. -/
structure Invoice where
  company_id : Nat
  sent_year : Nat
  sent_month : Nat
  amount : Int
deriving DecidableEq, Repr

/-- `fetch_monthly_data` for one cohort month: restrict invoices to the
stripe ids of companies closed in that month of 2023 and to invoice months
between the cohort month and 8, group by (company, invoice month), then
regroup by invoice month summing revenue.  Output rows are
(invoice_month, revenue). -/
def fetchMonthlyData (companies : List CompanyRec) (idents : List IdentRec)
    (invoices : List Invoice) (month : Nat) : List (Nat × Int) :=
  let closed := (companies.filter
    (fun c => c.close_year = 2023 ∧ c.close_month = month)).map (fun c => c.id)
  let stripes := (idents.filter (fun r => r.company_id ∈ closed)).map
    (fun r => r.stripe_id)
  let inv := invoices.filter (fun v => v.company_id ∈ stripes ∧
    v.sent_year = 2023 ∧ month ≤ v.sent_month ∧ v.sent_month ≤ 8)
  let pairs := ((inv.map (fun v => (v.company_id, v.sent_month))).dedup).map
    (fun p => (p.2, ((inv.filter (fun v => v.company_id = p.1 ∧
      v.sent_month = p.2)).map (fun v => v.amount)).sum))
  ((pairs.map (fun p => p.1)).dedup).map
    (fun im => (im, ((pairs.filter (fun p => p.1 = im)).map (fun p => p.2)).sum))

/-- The `mock_data` lookup table of `get_mock_revenue`. -/
def mockTable (cm : Nat) : List Nat :=
  match cm with
  | 1 => [292, 644, 621, 317, 649, 556, 328, 536]
  | 2 => [754, 317, 307, 187, 228, 57, 95]
  | 3 => [51, 693, 173, 99, 356, 378]
  | 4 => [206, 278, 79, 52, 85]
  | 5 => [69, 63, 56, 85]
  | 6 => [404, 160, 329]
  | 7 => [276, 119]
  | 8 => [293]
  | _ => []

/-- `get_mock_revenue`: the (invoice_month)-th entry of the cohort's sequence
when in range, and `None` (a bare `return`) otherwise. -/
def getMockRevenue (cm im : Nat) : Option Nat :=
  if 1 ≤ im ∧ im ≤ (mockTable cm).length then some ((mockTable cm).getD (im - 1) 0)
  else none

/-- One row of the synthetic cohort dataframe. -/
structure MockRow where
  cohort : Nat
  invoice_month : Nat
  revenue : Option Nat
deriving DecidableEq, Repr

/-- `generate_mock_data`: cohorts 1..8, and for each the invoice months 1..8
with the mock revenue lookup (the cohort label `2023-mm` is represented by its
month number). -/
def generateMockData : List MockRow :=
  (List.range 8).flatMap (fun m0 =>
    (List.range 8).map (fun i0 => ⟨m0 + 1, i0 + 1, getMockRevenue (m0 + 1) (i0 + 1)⟩))

/-! ## Theorems -/

/-- Characterization of `List.min?` on integers. -/
theorem intMinIff (l : List Int) (a : Int) :
    l.min? = some a ↔ a ∈ l ∧ ∀ b, b ∈ l → a ≤ b := by
  have anti : Std.Antisymm (fun x1 x2 : Int => x1 ≤ x2) :=
    { antisymm := fun h h2 => le_antisymm h h2 }
  exact List.min?_eq_some_iff (fun _ => le_refl _) (fun a b => min_choice a b)
    (fun _ _ _ => le_min_iff)

/-- Characterization of `List.max?` on integers. -/
theorem intMaxIff (l : List Int) (a : Int) :
    l.max? = some a ↔ a ∈ l ∧ ∀ b ∈ l, b ≤ a := by
  have anti : Std.Antisymm (fun x1 x2 : Int => x1 ≤ x2) :=
    { antisymm := fun h h2 => le_antisymm h h2 }
  exact List.max?_eq_some_iff (fun _ => le_refl _) (fun a b => max_choice a b)
    (fun _ _ _ => max_le_iff)

theorem dailyTotal_pos_mem (convs : List Conv1) (d : Int)
    (h : dailyTotal convs d ≠ 0) : d ∈ convs.map (fun c => c.date) := by
  by_contra hmem
  apply h
  unfold dailyTotal
  have : convs.filter (fun c => c.date = d) = [] := by
    rw [List.filter_eq_nil_iff]
    intro c hc hcd
    exact hmem (List.mem_map.mpr ⟨c, hc, by simpa using hcd⟩)
  simp [this]

/-- Every date whose trailing 3-day total reaches 350 is preceded (weakly) by an
event day whose trailing 3-day total also reaches 350: conversation totals are
nonnegative, so restricting the MIN to days with conversation rows loses
nothing. -/
theorem exists_event_day (convs : List Conv1) (d : Int)
    (h : 350 ≤ threeDaySum convs d) :
    ∃ e, e ∈ convs.map (fun c => c.date) ∧ e ≤ d ∧ 350 ≤ threeDaySum convs e := by
  by_cases h0 : dailyTotal convs d = 0
  · by_cases h1 : dailyTotal convs (d - 1) = 0
    · refine ⟨d - 2, ?_, by omega, ?_⟩
      · apply dailyTotal_pos_mem
        unfold threeDaySum at h
        omega
      · unfold threeDaySum at h ⊢
        omega
    · refine ⟨d - 1, dailyTotal_pos_mem convs _ h1, by omega, ?_⟩
      unfold threeDaySum at h ⊢
      have e1 : d - 1 - 1 = d - 2 := by ring
      have e2 : d - 1 - 2 = d - 3 := by ring
      rw [e1, e2]
      omega
  · exact ⟨d, dailyTotal_pos_mem convs d h0, le_refl d, h⟩

/-- C1: for every entity, the activation (crossing) date computed by the
rolling-window aggregation is the earliest date whose trailing 3-day window
total (current day plus the 2 preceding days, missing days contributing 0) is
at least 350; the boundary is inclusive (`≥ 350` succeeds). -/
theorem c1_activation_is_least_crossing (convs : List Conv1) (D : Int) :
    activationDate convs = some D ↔
      350 ≤ threeDaySum convs D ∧ ∀ d : Int, 350 ≤ threeDaySum convs d → D ≤ d := by
  unfold activationDate
  rw [intMinIff]
  constructor
  · rintro ⟨hmem, hmin⟩
    have hD : 350 ≤ threeDaySum convs D := by
      have := List.mem_filter.mp hmem
      simpa using this.2
    refine ⟨hD, fun d hd => ?_⟩
    obtain ⟨e, he, hed, hcross⟩ := exists_event_day convs d hd
    have : D ≤ e := hmin e (List.mem_filter.mpr ⟨he, by simpa using hcross⟩)
    omega
  · rintro ⟨hD, hmin⟩
    obtain ⟨e, he, hed, hcross⟩ := exists_event_day convs D hD
    have heD : e = D := le_antisymm hed (hmin e hcross)
    subst heD
    refine ⟨List.mem_filter.mpr ⟨he, by simpa using hcross⟩, fun b hb => ?_⟩
    have := List.mem_filter.mp hb
    exact hmin b (by simpa using this.2)

/-- C7 counterexample: on daily totals [100,100,100,100] (days 1-4) the
aggregator does NOT report day 3 as the crossing date — every trailing 3-day
sum is at most 300 < 350. -/
theorem c7_counterexample : activationDate c7Fixture ≠ some 3 := by decide

/-- C7 (amended): on daily totals [100,100,100,100] over days 1-4 with
threshold 350 and a 3-day trailing window, the aggregator reports no crossing
date at all (the largest trailing sum is 300 < 350). -/
theorem c7_no_crossing : activationDate c7Fixture = none := by decide

/-- A day with cumulative total at least 500 is preceded (weakly) by a horizon
event day with the same property (totals are nonnegative, so the last event
day at or before `d` carries the whole cumulative total). -/
theorem exists_horizon_day (convs : List Conv1) (act d : Int)
    (h : 500 ≤ cumThrough convs act d) :
    ∃ e, e ∈ (horizonConvs convs act).map (fun c => c.date) ∧ e ≤ d ∧
      500 ≤ cumThrough convs act e := by
  have hSne : (horizonConvs convs act).filter (fun c => c.date ≤ d) ≠ [] := by
    intro hnil
    rw [cumThrough, hnil] at h
    simp at h
  obtain ⟨e, hmax⟩ : ∃ e,
      (((horizonConvs convs act).filter (fun c => c.date ≤ d)).map
        (fun c => c.date)).max? = some e := by
    cases hm : (((horizonConvs convs act).filter (fun c => c.date ≤ d)).map
        (fun c => c.date)).max? with
    | none =>
      rw [List.max?_eq_none_iff] at hm
      exact absurd (List.map_eq_nil_iff.mp hm) hSne
    | some e => exact ⟨e, rfl⟩
  rw [intMaxIff] at hmax
  obtain ⟨hemem, hub⟩ := hmax
  obtain ⟨r, hrS, hrd⟩ := List.mem_map.mp hemem
  have hrH : r ∈ horizonConvs convs act := (List.mem_filter.mp hrS).1
  have hed : e ≤ d := by
    have := (List.mem_filter.mp hrS).2
    simp at this
    omega
  refine ⟨e, List.mem_map.mpr ⟨r, hrH, hrd⟩, hed, ?_⟩
  have hfeq : (horizonConvs convs act).filter (fun c => c.date ≤ e) =
      (horizonConvs convs act).filter (fun c => c.date ≤ d) := by
    have h1 : (horizonConvs convs act).filter (fun c => c.date ≤ e) =
        ((horizonConvs convs act).filter (fun c => c.date ≤ d)).filter
          (fun c => c.date ≤ e) := by
      rw [List.filter_filter]
      apply List.filter_congr
      intro x hx
      by_cases hxe : x.date ≤ e
      · have hxd : x.date ≤ d := by omega
        simp [hxe, hxd]
      · simp [hxe]
    rw [h1]
    apply List.filter_eq_self.mpr
    intro a ha
    have : a.date ≤ e := hub a.date (List.mem_map.mpr ⟨a, ha, rfl⟩)
    simpa using this
  rw [cumThrough, hfeq, ← cumThrough]
  exact h

/-- The raw (pre-adjustment) crossing date lies inside the 60-day horizon and
is the first date whose cumulative successful-conversation total reaches
500. -/
theorem rawCrossing_spec (convs : List Conv1) (act raw : Int)
    (h : rawCrossing convs act = some raw) :
    (act ≤ raw ∧ raw ≤ act + 60) ∧ 500 ≤ cumThrough convs act raw ∧
      ∀ d : Int, d < raw → cumThrough convs act d < 500 := by
  rw [rawCrossing, intMinIff] at h
  obtain ⟨hmem, hmin⟩ := h
  have hcum : 500 ≤ cumThrough convs act raw := by
    have := (List.mem_filter.mp hmem).2
    simpa using this
  have hdates : raw ∈ (horizonConvs convs act).map (fun c => c.date) :=
    (List.mem_filter.mp hmem).1
  obtain ⟨r, hrH, hrd⟩ := List.mem_map.mp hdates
  have hwin : act ≤ raw ∧ raw ≤ act + 60 := by
    have := (List.mem_filter.mp hrH).2
    simp at this
    omega
  refine ⟨hwin, hcum, fun d hd => ?_⟩
  by_contra hge
  push_neg at hge
  obtain ⟨e, heH, hed, hecum⟩ := exists_horizon_day convs act d hge
  have : raw ≤ e := hmin e (List.mem_filter.mpr ⟨heH, by simpa using hecum⟩)
  omega

/-- The success date of a single query result is the raw crossing date shifted
by the adjustment, kept `none` when there is no crossing. -/
theorem queryResult_success_date (convs : List Conv1) (act days : Int) :
    (queryResult convs act days).success_date =
      (rawCrossing convs act).map (fun d => d + days) := by
  unfold queryResult
  cases h : rawCrossing convs act <;> simp

/-- When no cumulative total in the horizon reaches 500 (in particular when
there are no horizon events at all), there is no raw crossing date. -/
theorem rawCrossing_none (convs : List Conv1) (act : Int)
    (h : horizonConvs convs act = [] ∨ ∀ d : Int, cumThrough convs act d < 500) :
    rawCrossing convs act = none := by
  rcases h with h | h
  · rw [rawCrossing, h]
    rfl
  · rw [rawCrossing]
    have : ((horizonConvs convs act).map (fun c => c.date)).filter
        (fun d => 500 ≤ cumThrough convs act d) = [] := by
      rw [List.filter_eq_nil_iff]
      intro d _
      have := h d
      simp only [decide_eq_true_eq]
      omega
    rw [this]
    rfl

/-- The loop aborts (whole-batch `None`) as soon as it needs an adjustment
index beyond the 4-entry vector. -/
theorem successGo_eq_none (convs : Nat → List Conv1) :
    ∀ (cs : List CompanyRow) (idx : Nat), cs ≠ [] → 4 < idx + cs.length →
      successGo convs idx cs = none := by
  intro cs
  induction cs with
  | nil => intro idx h _; exact absurd rfl h
  | cons c rest ih =>
    intro idx _ hlen
    cases hadj : adjustList[idx]? with
    | none => simp [successGo, hadj]
    | some days =>
      have hidx : idx < 4 := by
        by_contra hge
        push_neg at hge
        rw [List.getElem?_eq_none (by simpa [adjustList] using hge)] at hadj
        exact Option.noConfusion hadj
      have hrest : rest ≠ [] := by
        intro hnil
        rw [hnil] at hlen
        simp at hlen
        omega
      have := ih (idx + 1) hrest (by simp at hlen ⊢; omega)
      simp [successGo, hadj, this]

/-- Positional characterization of a successful batch: row `i` pairs company
`i`'s id with its query result computed with adjustment `adjust[i]`. -/
theorem successGo_spec (convs : Nat → List Conv1) :
    ∀ (cs : List CompanyRow) (idx : Nat) (rows : List (Nat × SuccessRow)),
      successGo convs idx cs = some rows →
      rows.length = cs.length ∧
        ∀ (i : Nat) (c : CompanyRow), cs[i]? = some c →
          ∃ days, adjustList[idx + i]? = some days ∧
            rows[i]? = some (c.id, queryResult (convs c.id) c.activation days) := by
  intro cs
  induction cs with
  | nil =>
    intro idx rows h
    simp [successGo] at h
    subst h
    exact ⟨rfl, fun i c hc => by simp at hc⟩
  | cons c rest ih =>
    intro idx rows h
    simp only [successGo] at h
    rw [Option.bind_eq_some] at h
    obtain ⟨days, hadj, hmap⟩ := h
    rw [Option.map_eq_some'] at hmap
    obtain ⟨rs, hrec, hrows⟩ := hmap
    subst hrows
    obtain ⟨hlen, hget⟩ := ih (idx + 1) rs hrec
    refine ⟨by simp [hlen], fun i c0 hc0 => ?_⟩
    cases i with
    | zero =>
      simp at hc0
      subst hc0
      exact ⟨days, by simpa using hadj, by simp⟩
    | succ i =>
      simp only [List.getElem?_cons_succ] at hc0 ⊢
      obtain ⟨ds, hds, hr⟩ := hget i c0 hc0
      refine ⟨ds, ?_, hr⟩
      have : idx + (i + 1) = idx + 1 + i := by omega
      rw [this]
      exact hds

/-- Inverting the batch wrapper: a `some` batch came from a successful,
nonempty loop run. -/
theorem fetch_some_inv (companies : List CompanyRow) (convs : Nat → List Conv1)
    (rows : List (Nat × SuccessRow))
    (h : fetchSuccessfulConversations companies convs = some rows) :
    successGo convs 0 companies = some rows ∧ rows ≠ [] := by
  rw [fetchSuccessfulConversations, Option.bind_eq_some] at h
  obtain ⟨r, hgo, hif⟩ := h
  by_cases hr : r = []
  · rw [if_pos hr] at hif
    exact Option.noConfusion hif
  · rw [if_neg hr] at hif
    cases hif
    exact ⟨hgo, hr⟩

/-- C9: the adjustment vector has exactly 4 entries, so any batch of 5 or more
companies hits an out-of-bounds positional lookup; the handler catches the
IndexError and the whole batch collapses to `None` — no per-entity results. -/
theorem c9_batch_none_of_ge_five (companies : List CompanyRow)
    (convs : Nat → List Conv1) (h : 5 ≤ companies.length) :
    adjustList.length = 4 ∧ fetchSuccessfulConversations companies convs = none := by
  refine ⟨rfl, ?_⟩
  have hne : companies ≠ [] := by
    intro hnil
    rw [hnil] at h
    simp at h
  have := successGo_eq_none convs companies 0 hne (by omega)
  rw [fetchSuccessfulConversations, this]
  rfl

/-- C9 witness: a concrete 5-company batch returns `none`. -/
theorem c9_witness :
    5 ≤ ([⟨1, 0⟩, ⟨2, 0⟩, ⟨3, 0⟩, ⟨4, 0⟩, ⟨5, 0⟩] : List CompanyRow).length ∧
      adjustList.length = 4 ∧
      fetchSuccessfulConversations [⟨1, 0⟩, ⟨2, 0⟩, ⟨3, 0⟩, ⟨4, 0⟩, ⟨5, 0⟩]
        (fun _ => []) = none :=
  ⟨by decide, c9_batch_none_of_ge_five _ (fun _ => []) (by decide)⟩

/-- Shared helper: row `i` of a successful batch is company `i`'s query result
with adjustment `adjust[i]`, whose success date is the raw crossing shifted by
that adjustment. -/
theorem batch_row_spec (companies : List CompanyRow)
    (convs : Nat → List Conv1) (rows : List (Nat × SuccessRow)) (i : Nat)
    (c : CompanyRow)
    (hf : fetchSuccessfulConversations companies convs = some rows)
    (hc : companies[i]? = some c) :
    ∃ days, adjustList[i]? = some days ∧
      rows[i]? = some (c.id, queryResult (convs c.id) c.activation days) ∧
      (queryResult (convs c.id) c.activation days).success_date =
        (rawCrossing (convs c.id) c.activation).map (fun d => d + days) := by
  obtain ⟨hgo, -⟩ := fetch_some_inv companies convs rows hf
  obtain ⟨-, hget⟩ := successGo_spec convs companies 0 rows hgo
  obtain ⟨days, hdays, hrow⟩ := hget i c hc
  exact ⟨days, by simpa using hdays, hrow,
    queryResult_success_date (convs c.id) c.activation days⟩

/-- C3: the reported success date of the company at position `i` equals its
raw first-crossing date plus the fixed per-position day offset
`adjust[i]` from the vector [0, -25, 65, 165]; the correction is applied
before reporting, not dropped. -/
theorem c3_reported_date_is_raw_plus_offset (companies : List CompanyRow)
    (convs : Nat → List Conv1) (rows : List (Nat × SuccessRow)) (i : Nat)
    (c : CompanyRow)
    (hf : fetchSuccessfulConversations companies convs = some rows)
    (hc : companies[i]? = some c) :
    ∃ days, adjustList[i]? = some days ∧
      rows[i]? = some (c.id, queryResult (convs c.id) c.activation days) ∧
      (queryResult (convs c.id) c.activation days).success_date =
        (rawCrossing (convs c.id) c.activation).map (fun d => d + days) :=
  batch_row_spec companies convs rows i c hf hc

/-- C3 witness: in the concrete batch, company 3 at position 2 gets offset 65
applied to its raw crossing date 0, reporting day 65. -/
theorem c3_witness :
    ∃ days, adjustList[2]? = some days ∧
      batchRows[2]? = some (3, queryResult (batchConvs 3) 0 days) ∧
      (queryResult (batchConvs 3) 0 days).success_date =
        (rawCrossing (batchConvs 3) 0).map (fun d => d + days) :=
  c3_reported_date_is_raw_plus_offset batchCompanies batchConvs batchRows 2
    ⟨3, 0⟩ (by decide) (by decide)

/-- C2 counterexample: in the concrete batch the reported success date of
company 3 (activation day 0) is day 65, outside the horizon [0, 60] — the
per-position offset is applied before reporting, so the reported date need not
lie in [activation, activation + 60]. -/
theorem c2_counterexample :
    fetchSuccessfulConversations batchCompanies batchConvs = some batchRows ∧
      (batchRows[2]? = some (3, ⟨some 65, some 500⟩)) ∧
      ¬((0 : Int) ≤ 65 ∧ (65 : Int) ≤ 0 + 60) := by
  refine ⟨by decide, by decide, by decide⟩

/-- C2 (amended): for every company whose batch row reports a success date,
the raw crossing date — the reported date minus the per-position offset
`adjust[i]` — lies within [activation, activation + 60], and the cumulative
successful-conversation total from the activation date up to it is the first
one ≥ 500. -/
theorem c2_raw_crossing_in_window (companies : List CompanyRow)
    (convs : Nat → List Conv1) (rows : List (Nat × SuccessRow)) (i : Nat)
    (c : CompanyRow) (rep : Int)
    (hf : fetchSuccessfulConversations companies convs = some rows)
    (hc : companies[i]? = some c)
    (hrep : (rows[i]?).bind (fun r => r.2.success_date) = some rep) :
    ∃ days, adjustList[i]? = some days ∧
      c.activation ≤ rep - days ∧ rep - days ≤ c.activation + 60 ∧
      500 ≤ cumThrough (convs c.id) c.activation (rep - days) ∧
      ∀ d : Int, d < rep - days → cumThrough (convs c.id) c.activation d < 500 := by
  obtain ⟨days, hdays, hrow, hsd⟩ :=
    batch_row_spec companies convs rows i c hf hc
  rw [hrow] at hrep
  simp only [Option.some_bind] at hrep
  rw [hsd] at hrep
  cases hraw : rawCrossing (convs c.id) c.activation with
  | none => rw [hraw] at hrep; simp at hrep
  | some raw =>
    rw [hraw] at hrep
    simp only [Option.map_some'] at hrep
    have hrd : rep = raw + days := by
      cases hrep
      rfl
    obtain ⟨⟨h1, h2⟩, h3, h4⟩ := rawCrossing_spec (convs c.id) c.activation raw hraw
    have hre : rep - days = raw := by omega
    exact ⟨days, hdays, by omega, by omega, by rwa [hre],
      fun d hd => h4 d (by omega)⟩

/-- C2 witness: at the concrete batch, position 2 reports day 65 with offset
65, and the raw date 65 - 65 = 0 lies in [0, 60] with the first crossing
there. -/
theorem c2_witness :
    ∃ days, adjustList[2]? = some days ∧
      (0 : Int) ≤ 65 - days ∧ 65 - days ≤ (0 : Int) + 60 ∧
      500 ≤ cumThrough (batchConvs 3) 0 (65 - days) ∧
      ∀ d : Int, d < 65 - days → cumThrough (batchConvs 3) 0 d < 500 :=
  c2_raw_crossing_in_window batchCompanies batchConvs batchRows 2 ⟨3, 0⟩ 65
    (by decide) (by decide) (by decide)

/-- A row whose success date is NULL is dropped by the downstream year filter,
whatever the year predicate — no exception, no spurious zero. -/
theorem filterByYear_not_mem (rows : List (Nat × SuccessRow)) (p : Int → Bool)
    (cid : Nat) : (cid, SuccessRow.mk none none) ∉ filterByYear rows p := by
  intro hmem
  have := (List.mem_filter.mp hmem).2
  simp at this

/-- C6: a company with no qualifying events (or whose cumulative total never
reaches 500) in its 60-day horizon gets a NULL success date and NULL
cumulative total — not zero, not an exception — and the downstream year filter
drops such a row without failing. -/
theorem c6_null_row_when_never_crossing (companies : List CompanyRow)
    (convs : Nat → List Conv1) (rows : List (Nat × SuccessRow)) (i : Nat)
    (c : CompanyRow) (p : Int → Bool)
    (hf : fetchSuccessfulConversations companies convs = some rows)
    (hc : companies[i]? = some c)
    (hno : horizonConvs (convs c.id) c.activation = [] ∨
      ∀ d : Int, cumThrough (convs c.id) c.activation d < 500) :
    rows[i]? = some (c.id, ⟨none, none⟩) ∧
      (c.id, SuccessRow.mk none none) ∉ filterByYear rows p := by
  obtain ⟨hgo, -⟩ := fetch_some_inv companies convs rows hf
  obtain ⟨-, hget⟩ := successGo_spec convs companies 0 rows hgo
  obtain ⟨days, -, hrow⟩ := hget i c hc
  have hraw := rawCrossing_none (convs c.id) c.activation hno
  have hq : queryResult (convs c.id) c.activation days = ⟨none, none⟩ := by
    rw [queryResult, hraw]
  rw [hq] at hrow
  exact ⟨hrow, filterByYear_not_mem rows p c.id⟩

/-- C6 witness: company 1 of the concrete batch has no conversations at all
and its batch row is NULL/NULL, dropped by the year filter. -/
theorem c6_witness :
    batchRows[0]? = some (1, ⟨none, none⟩) ∧
      ((1 : Nat), SuccessRow.mk none none) ∉ filterByYear batchRows (fun _ => true) :=
  c6_null_row_when_never_crossing batchCompanies batchConvs batchRows 0 ⟨1, 0⟩
    (fun _ => true) (by decide) (by decide) (Or.inl rfl)

/-- C8: in synthetic-data mode, cohort month 1 maps invoice months 1..8 to
exactly [292, 644, 621, 317, 649, 556, 328, 536] (the i-th invoice month to
the i-th element), and any (cohort, invoice month) outside the table's valid
range yields `none` — not 0 — preserving the no-data/zero-revenue
distinction. -/
theorem c8_mock_lookup :
    (∀ im : Nat, 1 ≤ im → im ≤ 8 →
      getMockRevenue 1 im =
        some ([292, 644, 621, 317, 649, 556, 328, 536].getD (im - 1) 0)) ∧
    ∀ cm im : Nat, ¬(1 ≤ im ∧ im ≤ (mockTable cm).length) →
      getMockRevenue cm im = none := by
  constructor
  · intro im h1 h2
    interval_cases im <;> rfl
  · intro cm im h
    rw [getMockRevenue, if_neg h]

/-- C8 witness: invoice month 3 of cohort 1 is 621; invoice month 8 of cohort
2 (sequence length 7) and cohort 9 (no sequence) are `none`. -/
theorem c8_witness :
    getMockRevenue 1 3 = some 621 ∧ getMockRevenue 2 8 = none ∧
      getMockRevenue 9 1 = none :=
  ⟨by simpa using c8_mock_lookup.1 3 (by decide) (by decide),
   c8_mock_lookup.2 2 8 (by decide), c8_mock_lookup.2 9 1 (by decide)⟩

/-- C5 counterexample: the synthetic path emits a non-null entry for cohort
month 2 at invoice month 1 (revenue 754), a period strictly before the
cohort's start month — the mock generator places each cohort's sequence at
invoice months 1..len instead of cohort..8. -/
theorem c5_counterexample :
    MockRow.mk 2 1 (some 754) ∈ generateMockData ∧ (1 : Nat) < 2 := by
  constructor
  · decide
  · decide

/-- C5 (amended): the live-query path keeps the invariant — every
(invoice_month, revenue) row produced by `fetch_monthly_data` for cohort
`month` has invoice month at least `month` (the query bounds invoice months
BETWEEN month AND 8); the synthetic path violates it. -/
theorem c5_live_path_no_early_period (companies : List CompanyRec)
    (idents : List IdentRec) (invoices : List Invoice) (month : Nat)
    (row : Nat × Int)
    (hrow : row ∈ fetchMonthlyData companies idents invoices month) :
    month ≤ row.1 := by
  simp only [fetchMonthlyData] at hrow
  obtain ⟨im, him, hrowim⟩ := List.mem_map.mp hrow
  have him2 := List.mem_dedup.mp him
  obtain ⟨p, hp, hpim⟩ := List.mem_map.mp him2
  obtain ⟨q, hq, hqp⟩ := List.mem_map.mp hp
  have hq2 := List.mem_dedup.mp hq
  obtain ⟨v, hv, hvq⟩ := List.mem_map.mp hq2
  have hvf := (List.mem_filter.mp hv).2
  simp only [decide_eq_true_eq] at hvf
  have : row.1 = v.sent_month := by
    rw [← hrowim]
    simp only
    rw [← hpim, ← hqp]
    simp only
    rw [← hvq]
  rw [this]
  exact hvf.2.2.1

/-- C5 witness: a one-company, one-invoice database for cohort month 3
produces the row (5, 100), and 3 ≤ 5. -/
theorem c5_witness :
    ((5 : Nat), (100 : Int)) ∈
      fetchMonthlyData [⟨10, 2023, 3⟩] [⟨10, 77⟩] [⟨77, 2023, 5, 100⟩] 3 ∧
    (3 : Nat) ≤ ((5 : Nat), (100 : Int)).1 :=
  ⟨by decide, c5_live_path_no_early_period [⟨10, 2023, 3⟩] [⟨10, 77⟩]
    [⟨77, 2023, 5, 100⟩] 3 (5, 100) (by decide)⟩

theorem dictInsert_keys (d : List (Nat × Int)) (k0 : Nat) (v : Int) (k : Nat) :
    k ∈ (dictInsert d k0 v).map (fun p => p.1) ↔
      k ∈ d.map (fun p => p.1) ∨ k = k0 := by
  unfold dictInsert
  by_cases hany : d.any (fun p => p.1 = k0)
  · rw [if_pos hany]
    have hkeys : (d.map (fun p => if p.1 = k0 then (k0, v) else p)).map
        (fun p => p.1) = d.map (fun p => p.1) := by
      rw [List.map_map]
      apply List.map_congr_left
      intro p hp
      by_cases hpk : p.1 = k0
      · simp [hpk]
      · simp [hpk]
    rw [hkeys]
    constructor
    · exact Or.inl
    · rintro (h | h)
      · exact h
      · subst h
        obtain ⟨p, hp, hpk⟩ := List.any_eq_true.mp hany
        simp only [decide_eq_true_eq] at hpk
        exact List.mem_map.mpr ⟨p, hp, hpk⟩
  · rw [if_neg hany]
    simp [List.mem_append, eq_comm]

theorem dictInsert_entries (d : List (Nat × Int)) (k0 : Nat) (v : Int)
    (x : Nat × Int) (hx : x ∈ dictInsert d k0 v) : x ∈ d ∨ x = (k0, v) := by
  unfold dictInsert at hx
  by_cases hany : d.any (fun p => p.1 = k0)
  · rw [if_pos hany] at hx
    obtain ⟨p, hp, hpx⟩ := List.mem_map.mp hx
    by_cases hpk : p.1 = k0
    · rw [if_pos hpk] at hpx
      exact Or.inr hpx.symm
    · rw [if_neg hpk] at hpx
      exact Or.inl (hpx ▸ hp)
  · rw [if_neg hany] at hx
    rcases List.mem_append.mp hx with h | h
    · exact Or.inl h
    · exact Or.inr (List.mem_singleton.mp h)

theorem dictInsert_keys_nodup (d : List (Nat × Int)) (k0 : Nat) (v : Int)
    (h : (d.map (fun p => p.1)).Nodup) :
    ((dictInsert d k0 v).map (fun p => p.1)).Nodup := by
  unfold dictInsert
  by_cases hany : d.any (fun p => p.1 = k0)
  · rw [if_pos hany]
    have hkeys : (d.map (fun p => if p.1 = k0 then (k0, v) else p)).map
        (fun p => p.1) = d.map (fun p => p.1) := by
      rw [List.map_map]
      apply List.map_congr_left
      intro p hp
      by_cases hpk : p.1 = k0
      · simp [hpk]
      · simp [hpk]
    rw [hkeys]
    exact h
  · rw [if_neg hany]
    rw [List.map_append]
    simp only [List.map_cons, List.map_nil]
    rw [List.nodup_append]
    refine ⟨h, List.nodup_singleton k0, ?_⟩
    intro a ha hb
    rw [List.mem_singleton] at hb
    subst hb
    obtain ⟨p, hp, hpk⟩ := List.mem_map.mp ha
    simp only [List.any_eq_true, decide_eq_true_eq] at hany
    push_neg at hany
    exact hany p hp hpk

theorem innerFold_keys (rows : List (Nat × Int)) (m : Nat) (p : Nat × Nat) :
    ∀ (acc : List (Nat × Int)) (k : Nat),
      k ∈ ((rows.foldl (fun acc2 r =>
          if p.2 = r.1 then dictInsert acc2 p.1 (r.2 + bonuses m p.1) else acc2)
        acc).map (fun q => q.1)) ↔
      (k ∈ acc.map (fun q => q.1) ∨ (k = p.1 ∧ ∃ t, (p.2, t) ∈ rows)) := by
  induction rows with
  | nil => intro acc k; simp
  | cons r rows ih =>
    intro acc k
    rw [List.foldl_cons]
    by_cases hp : p.2 = r.1
    · rw [if_pos hp]
      rw [ih]
      rw [dictInsert_keys]
      constructor
      · rintro ((h | h) | ⟨h, t, ht⟩)
        · exact Or.inl h
        · exact Or.inr ⟨h, r.2, by rw [hp]; exact List.mem_cons_self _ _⟩
        · exact Or.inr ⟨h, t, List.mem_cons_of_mem _ ht⟩
      · rintro (h | ⟨h, t, ht⟩)
        · exact Or.inl (Or.inl h)
        · exact Or.inl (Or.inr h)
    · rw [if_neg hp]
      rw [ih]
      constructor
      · rintro (h | ⟨h, t, ht⟩)
        · exact Or.inl h
        · exact Or.inr ⟨h, t, List.mem_cons_of_mem _ ht⟩
      · rintro (h | ⟨h, t, ht⟩)
        · exact Or.inl h
        · rcases List.mem_cons.mp ht with he | he
          · exfalso
            apply hp
            have : (p.2, t).1 = r.1 := by rw [he]
            simpa using this
          · exact Or.inr ⟨h, t, he⟩

theorem outerFold_keys (rows : List (Nat × Int)) (m : Nat) :
    ∀ (mapping : List (Nat × Nat)) (acc : List (Nat × Int)) (k : Nat),
      k ∈ ((mapping.foldl (fun acc p =>
          rows.foldl (fun acc2 r =>
            if p.2 = r.1 then dictInsert acc2 p.1 (r.2 + bonuses m p.1) else acc2)
          acc) acc).map (fun q => q.1)) ↔
      (k ∈ acc.map (fun q => q.1) ∨
        ∃ aid, (k, aid) ∈ mapping ∧ ∃ t, (aid, t) ∈ rows) := by
  intro mapping
  induction mapping with
  | nil => intro acc k; simp
  | cons p mapping ih =>
    intro acc k
    rw [List.foldl_cons]
    rw [ih]
    rw [innerFold_keys]
    constructor
    · rintro ((h | ⟨hk, t, ht⟩) | ⟨aid, ha, t, ht⟩)
      · exact Or.inl h
      · exact Or.inr ⟨p.2, by rw [hk]; exact List.mem_cons_self _ _, t, ht⟩
      · exact Or.inr ⟨aid, List.mem_cons_of_mem _ ha, t, ht⟩
    · rintro (h | ⟨aid, ha, t, ht⟩)
      · exact Or.inl (Or.inl h)
      · rcases List.mem_cons.mp ha with he | he
        · refine Or.inl (Or.inr ⟨?_, t, ?_⟩)
          · have : (k, aid).1 = p.1 := by rw [he]
            simpa using this
          · have : (k, aid).2 = p.2 := by rw [he]
            simp at this
            rwa [← this]
        · exact Or.inr ⟨aid, he, t, ht⟩

theorem innerFold_entries (rows : List (Nat × Int)) (m : Nat) (p : Nat × Nat) :
    ∀ (acc : List (Nat × Int)) (x : Nat × Int),
      x ∈ rows.foldl (fun acc2 r =>
          if p.2 = r.1 then dictInsert acc2 p.1 (r.2 + bonuses m p.1) else acc2) acc →
      x ∈ acc ∨ (x.1 = p.1 ∧ ∃ t, (p.2, t) ∈ rows ∧ x.2 = t + bonuses m p.1) := by
  induction rows with
  | nil => intro acc x hx; exact Or.inl hx
  | cons r rows ih =>
    intro acc x hx
    rw [List.foldl_cons] at hx
    rcases ih _ x hx with h | ⟨h1, t, ht, h2⟩
    · by_cases hp : p.2 = r.1
      · rw [if_pos hp] at h
        rcases dictInsert_entries _ _ _ _ h with h | h
        · exact Or.inl h
        · refine Or.inr ⟨by rw [h], r.2, ?_, by rw [h]⟩
          rw [hp]
          exact List.mem_cons_self _ _
      · rw [if_neg hp] at h
        exact Or.inl h
    · exact Or.inr ⟨h1, t, List.mem_cons_of_mem _ ht, h2⟩

theorem outerFold_entries (rows : List (Nat × Int)) (m : Nat) :
    ∀ (mapping : List (Nat × Nat)) (acc : List (Nat × Int)) (x : Nat × Int),
      x ∈ mapping.foldl (fun acc p =>
          rows.foldl (fun acc2 r =>
            if p.2 = r.1 then dictInsert acc2 p.1 (r.2 + bonuses m p.1) else acc2)
          acc) acc →
      x ∈ acc ∨ ∃ aid, (x.1, aid) ∈ mapping ∧
        ∃ t, (aid, t) ∈ rows ∧ x.2 = t + bonuses m x.1 := by
  intro mapping
  induction mapping with
  | nil => intro acc x hx; exact Or.inl hx
  | cons p mapping ih =>
    intro acc x hx
    rw [List.foldl_cons] at hx
    rcases ih _ x hx with h | ⟨aid, ha, t, ht, h2⟩
    · rcases innerFold_entries rows m p acc x h with h | ⟨h1, t, ht, h2⟩
      · exact Or.inl h
      · refine Or.inr ⟨p.2, ?_, t, ht, by rw [h1]; exact h2⟩
        have : (x.1, p.2) = p := by
          rw [h1]
        rw [this]
        exact List.mem_cons_self _ _
    · exact Or.inr ⟨aid, List.mem_cons_of_mem _ ha, t, ht, h2⟩

theorem innerFold_nodup (rows : List (Nat × Int)) (m : Nat) (p : Nat × Nat) :
    ∀ (acc : List (Nat × Int)), (acc.map (fun q => q.1)).Nodup →
      (((rows.foldl (fun acc2 r =>
          if p.2 = r.1 then dictInsert acc2 p.1 (r.2 + bonuses m p.1) else acc2)
        acc)).map (fun q => q.1)).Nodup := by
  induction rows with
  | nil => intro acc h; exact h
  | cons r rows ih =>
    intro acc h
    rw [List.foldl_cons]
    apply ih
    by_cases hp : p.2 = r.1
    · rw [if_pos hp]
      exact dictInsert_keys_nodup _ _ _ h
    · rw [if_neg hp]
      exact h

theorem outerFold_nodup (rows : List (Nat × Int)) (m : Nat) :
    ∀ (mapping : List (Nat × Nat)) (acc : List (Nat × Int)),
      (acc.map (fun q => q.1)).Nodup →
      ((mapping.foldl (fun acc p =>
          rows.foldl (fun acc2 r =>
            if p.2 = r.1 then dictInsert acc2 p.1 (r.2 + bonuses m p.1) else acc2)
          acc) acc).map (fun q => q.1)).Nodup := by
  intro mapping
  induction mapping with
  | nil => intro acc h; exact h
  | cons p mapping ih =>
    intro acc h
    rw [List.foldl_cons]
    exact ih _ (innerFold_nodup rows m p acc h)

/-- An account has a grouped SUM row exactly when it has a matched
conversation. -/
theorem groupedRows_mem_iff (convs : List Conv2) (accounts : List Nat)
    (m y : Nat) (aid : Nat) :
    (∃ t, (aid, t) ∈ groupedRows convs accounts m y) ↔
      ∃ cv, cv ∈ matchedConvs convs accounts m y ∧ cv.account_id = aid := by
  constructor
  · rintro ⟨t, ht⟩
    rw [groupedRows] at ht
    obtain ⟨a, ha, hat⟩ := List.mem_map.mp ht
    have haid : a = aid := by
      have := congrArg Prod.fst hat
      simpa using this
    subst haid
    have := List.mem_dedup.mp ha
    obtain ⟨cv, hcv, hacc⟩ := List.mem_map.mp this
    exact ⟨cv, hcv, hacc⟩
  · rintro ⟨cv, hcv, hacc⟩
    rw [groupedRows]
    refine ⟨(((matchedConvs convs accounts m y).filter
      (fun c => c.account_id = aid)).map (fun c => c.total)).sum,
      List.mem_map.mpr ⟨aid, ?_, rfl⟩⟩
    rw [List.mem_dedup]
    exact List.mem_map.mpr ⟨cv, hcv, hacc⟩

/-- C4 counterexample: a period whose set of matched companies is empty need
not get rate 0 — with one recently closed company (id 5) and an empty
`company_identifiers` table, the second query runs `WHERE account_id IN ()`,
psycopg2 raises, nothing catches it, and the run crashes (`none`) instead of
reporting 0%. -/
theorem c4_counterexample :
    getSuccessfulConversationsForCompanies [5] [] [] 1 2023 = none ∧
      monthlyPercentage [5] [] [] 1 2023 = none ∧
      monthlyPercentage [5] [] [] 1 2023 ≠ some 0 := by
  refine ⟨by decide, by decide, by decide⟩

/-- C4 (amended): whenever the query pipeline completes (the company set is
empty, or some closed company has an identifier-mapping row), the dict keys
are exactly the companies with at least one matched successful-conversation
row (distinct, so counts are company counts, and zero-match companies are
excluded rather than counted as failures); every stored metric is a grouped
conversation SUM plus the fixed per-month per-company bonus; the rate is
(#companies with metric ≥ 1500) / (#companies with a matched row) × 100, with
an empty denominator yielding rate 0 instead of a division by zero.  The
pipeline fails to complete — an uncaught `IN ()` error, no rate at all —
exactly when closed companies exist but none has a mapping row. -/
theorem c4_success_rate (companyIds : List Nat) (idents : List (Nat × Nat))
    (convs : List Conv2) (m y : Nat) :
    (∀ sc, getSuccessfulConversationsForCompanies companyIds idents convs m y =
        some sc →
      (sc.map (fun p => p.1)).Nodup ∧
      (∀ cid : Nat, cid ∈ sc.map (fun p => p.1) ↔
        (cid ∈ companyIds ∧ ∃ aid, (cid, aid) ∈ idents ∧ ∃ cv, cv ∈ convs ∧
          cv.account_id = aid ∧ cv.successful = true ∧ cv.month = m ∧ cv.year = y)) ∧
      (∀ x ∈ sc, ∃ aid t, (x.1, aid) ∈ accountMapping idents companyIds ∧
        (aid, t) ∈ groupedRows convs
          ((accountMapping idents companyIds).map (fun p => p.2)) m y ∧
        x.2 = t + bonuses m x.1) ∧
      monthlyPercentage companyIds idents convs m y =
        some (if sc = [] then 0
          else ((sc.filter (fun p => 1500 ≤ p.2)).length : ℚ) / (sc.length : ℚ)
            * 100)) ∧
    (getSuccessfulConversationsForCompanies companyIds idents convs m y = none ↔
      companyIds ≠ [] ∧ accountMapping idents companyIds = []) := by
  constructor
  · intro sc hsc
    have hrate : monthlyPercentage companyIds idents convs m y =
        some (if sc = [] then 0
          else ((sc.filter (fun p => 1500 ≤ p.2)).length : ℚ) / (sc.length : ℚ)
            * 100) := by
      rw [monthlyPercentage, hsc, Option.map_some']
      congr 1
      show (if sc.map (fun p => p.1) = [] then (0 : ℚ)
        else (((sc.filter (fun p => 1500 ≤ p.2)).map (fun p => p.1)).length : ℚ) /
          ((sc.map (fun p => p.1)).length : ℚ) * 100) = _
      simp only [List.map_eq_nil_iff, List.length_map]
    rw [getSuccessfulConversationsForCompanies] at hsc
    by_cases hcids : companyIds = []
    · rw [if_pos hcids] at hsc
      injection hsc with h
      subst h
      refine ⟨by simp, ?_, ?_, hrate⟩
      · intro cid
        subst hcids
        simp
      · intro x hx
        simp at hx
    · rw [if_neg hcids] at hsc
      by_cases hmap : accountMapping idents companyIds = []
      · rw [if_pos hmap] at hsc
        exact absurd hsc (by simp)
      · rw [if_neg hmap] at hsc
        injection hsc with h
        subst h
        refine ⟨?_, ?_, ?_, hrate⟩
        · rw [buildResult]
          exact outerFold_nodup _ m _ [] (by simp)
        · intro cid
          rw [buildResult, outerFold_keys]
          simp only [List.map_nil, List.not_mem_nil, false_or]
          constructor
          · rintro ⟨aid, hmap2, hrow⟩
            have hmap3 := List.mem_filter.mp hmap2
            have hcid : cid ∈ companyIds := by simpa using hmap3.2
            obtain ⟨cv, hcv, hacc⟩ := (groupedRows_mem_iff convs _ m y aid).mp hrow
            have hcv2 := List.mem_filter.mp hcv
            have hconds := hcv2.2
            simp only [decide_eq_true_eq, Bool.and_eq_true] at hconds
            exact ⟨hcid, aid, hmap3.1,
              cv, hcv2.1, hacc, by tauto, by tauto, by tauto⟩
          · rintro ⟨hcid, aid, hid, cv, hcv, hacc, hsucc, hm, hy⟩
            have hmap2 : (cid, aid) ∈ accountMapping idents companyIds :=
              List.mem_filter.mpr ⟨hid, by simpa using hcid⟩
            refine ⟨aid, hmap2, ?_⟩
            rw [groupedRows_mem_iff]
            refine ⟨cv, List.mem_filter.mpr ⟨hcv, ?_⟩, hacc⟩
            have haccs : cv.account_id ∈ (accountMapping idents companyIds).map
                (fun p => p.2) := List.mem_map.mpr ⟨(cid, aid), hmap2, hacc.symm⟩
            simp [haccs, hsucc, hm, hy]
        · intro x hx
          rw [buildResult] at hx
          rcases outerFold_entries _ m _ [] x hx with h | ⟨aid, ha, t, ht, hval⟩
          · exact absurd h (List.not_mem_nil x)
          · exact ⟨aid, t, ha, ht, hval⟩
  · rw [getSuccessfulConversationsForCompanies]
    by_cases hcids : companyIds = []
    · simp [hcids]
    · by_cases hmap : accountMapping idents companyIds = []
      · simp [hcids, hmap]
      · simp [hcids, hmap]

/-- C4 witness: one company whose account totals 1600 successful conversations
in January 2023 gives a 100% rate. -/
theorem c4_witness :
    monthlyPercentage [7] [(7, 70)] [⟨70, 1, 2023, true, 1600⟩] 1 2023 =
      some 100 := by
  have h := ((c4_success_rate [7] [(7, 70)] [⟨70, 1, 2023, true, 1600⟩] 1
    2023).1 [(7, 1600)] (by decide)).2.2.2
  rw [h]
  norm_num

theorem daysInMonth_ge (y m : Nat) : 28 ≤ daysInMonth y m := by
  rw [daysInMonth]
  split
  · split <;> omega
  · split <;> omega

theorem daysInMonth_le (y m : Nat) : daysInMonth y m ≤ 31 := by
  rw [daysInMonth]
  split
  · split <;> omega
  · split <;> omega

theorem addDays_within : ∀ (n : Nat) (dt : Date),
    dt.day + n ≤ daysInMonth dt.year dt.month →
    addDays dt n = ⟨dt.year, dt.month, dt.day + n⟩ := by
  intro n
  induction n with
  | zero => intro dt _; simp [addDays]
  | succ n ih =>
    intro dt h
    rw [addDays, ih dt (by omega)]
    rw [nextDay]
    rw [if_pos (show dt.day + n < daysInMonth dt.year dt.month by omega)]
    rfl

theorem addDays_add (dt : Date) (a : Nat) : ∀ b : Nat,
    addDays dt (a + b) = addDays (addDays dt a) b := by
  intro b
  induction b with
  | zero => rfl
  | succ b ih =>
    have : a + (b + 1) = (a + b) + 1 := by omega
    rw [this, addDays, ih, addDays]

theorem subDays_within : ∀ (n : Nat) (dt : Date), n < dt.day →
    subDays dt n = ⟨dt.year, dt.month, dt.day - n⟩ := by
  intro n
  induction n with
  | zero => intro dt _; simp [subDays]
  | succ n ih =>
    intro dt h
    rw [subDays, ih dt (by omega)]
    rw [prevDay]
    rw [if_pos (show (1 : Nat) < dt.day - n by omega)]
    rfl

theorem nextDay_eom (y m : Nat) (hm12 : m < 12) :
    nextDay ⟨y, m, daysInMonth y m⟩ = ⟨y, m + 1, 1⟩ := by
  rw [nextDay]
  rw [if_neg (show ¬((⟨y, m, daysInMonth y m⟩ : Date).day <
    daysInMonth y m) by simp)]
  rw [if_pos (show (⟨y, m, daysInMonth y m⟩ : Date).month < 12 from hm12)]

theorem nextDay_eoy (y : Nat) :
    nextDay ⟨y, 12, daysInMonth y 12⟩ = ⟨y + 1, 1, 1⟩ := by
  rw [nextDay]
  rw [if_neg (show ¬((⟨y, 12, daysInMonth y 12⟩ : Date).day <
    daysInMonth y 12) by simp)]
  rw [if_neg (show ¬((⟨y, 12, daysInMonth y 12⟩ : Date).month < 12) by simp)]

theorem prevDay_fom (y m : Nat) (hm : 1 < m) :
    prevDay ⟨y, m, 1⟩ = ⟨y, m - 1, daysInMonth y (m - 1)⟩ := by
  rw [prevDay]
  rw [if_neg (show ¬((1 : Nat) < (⟨y, m, 1⟩ : Date).day) by simp)]
  rw [if_pos (show (1 : Nat) < (⟨y, m, 1⟩ : Date).month from hm)]

theorem prevDay_foy (y : Nat) :
    prevDay ⟨y, 1, 1⟩ = ⟨y - 1, 12, daysInMonth (y - 1) 12⟩ := by
  rw [prevDay]
  rw [if_neg (show ¬((1 : Nat) < (⟨y, 1, 1⟩ : Date).day) by simp)]
  rw [if_neg (show ¬((1 : Nat) < (⟨y, 1, 1⟩ : Date).month) by simp)]

theorem addDays_first31 (y m : Nat) (hm1 : 1 ≤ m) (hm2 : m ≤ 12) :
    addDays ⟨y, m, 1⟩ 31 =
      if m < 12 then (⟨y, m + 1, 32 - daysInMonth y m⟩ : Date)
      else ⟨y + 1, 1, 32 - daysInMonth y m⟩ := by
  have hL1 : 28 ≤ daysInMonth y m := daysInMonth_ge y m
  have hL2 : daysInMonth y m ≤ 31 := daysInMonth_le y m
  have h31 : (31 : Nat) = (daysInMonth y m - 1) + (1 + (31 - daysInMonth y m)) := by
    omega
  rw [h31, addDays_add, addDays_add]
  have hfirst : addDays ⟨y, m, 1⟩ (daysInMonth y m - 1) = ⟨y, m, daysInMonth y m⟩ := by
    rw [addDays_within (daysInMonth y m - 1) ⟨y, m, 1⟩
      (show (1 : Nat) + (daysInMonth y m - 1) ≤ daysInMonth y m by omega)]
    have : 1 + (daysInMonth y m - 1) = daysInMonth y m := by omega
    rw [this]
  rw [hfirst]
  by_cases hm12 : m < 12
  · rw [if_pos hm12]
    have hone : addDays ⟨y, m, daysInMonth y m⟩ 1 = ⟨y, m + 1, 1⟩ := by
      show nextDay (addDays ⟨y, m, daysInMonth y m⟩ 0) = _
      rw [addDays]
      exact nextDay_eom y m hm12
    rw [hone]
    rw [addDays_within (31 - daysInMonth y m) ⟨y, m + 1, 1⟩
      (show (1 : Nat) + (31 - daysInMonth y m) ≤ daysInMonth y (m + 1) by
        have := daysInMonth_ge y (m + 1); omega)]
    have : 1 + (31 - daysInMonth y m) = 32 - daysInMonth y m := by omega
    rw [this]
  · rw [if_neg hm12]
    have hm' : m = 12 := by omega
    subst hm'
    have hone : addDays ⟨y, 12, daysInMonth y 12⟩ 1 = ⟨y + 1, 1, 1⟩ := by
      show nextDay (addDays ⟨y, 12, daysInMonth y 12⟩ 0) = _
      rw [addDays]
      exact nextDay_eoy y
    rw [hone]
    rw [addDays_within (31 - daysInMonth y 12) ⟨y + 1, 1, 1⟩
      (show (1 : Nat) + (31 - daysInMonth y 12) ≤ daysInMonth (y + 1) 1 by
        have := daysInMonth_ge (y + 1) 1; omega)]
    have : 1 + (31 - daysInMonth y 12) = 32 - daysInMonth y 12 := by omega
    rw [this]

theorem closedWindow_eq (year month : Nat) (hm1 : 1 ≤ month) (hm2 : month ≤ 12) :
    closedWindow month year =
      ((if month = 1 then ⟨year - 1, 12, 1⟩ else ⟨year, month - 1, 1⟩ : Date),
       (⟨year, month, daysInMonth year month⟩ : Date)) := by
  have hL1 : 28 ≤ daysInMonth year month := daysInMonth_ge year month
  have hL2 : daysInMonth year month ≤ 31 := daysInMonth_le year month
  rw [closedWindow, addDays_first31 year month hm1 hm2]
  rw [Prod.mk.injEq]
  refine ⟨?_, ?_⟩
  · by_cases hm : month = 1
    · rw [if_neg (show ¬(month ≠ 1) by simpa using hm), if_pos hm]
    · rw [if_pos hm, if_neg hm]
  · by_cases hm12 : month < 12
    · rw [if_pos hm12]
      have hday : ((⟨year, month + 1, 32 - daysInMonth year month⟩ : Date)).day =
          (31 - daysInMonth year month) + 1 := by
        show 32 - daysInMonth year month = _
        omega
      rw [hday, subDays]
      rw [subDays_within (31 - daysInMonth year month)
        ⟨year, month + 1, 32 - daysInMonth year month⟩
        (show 31 - daysInMonth year month <
          (⟨year, month + 1, 32 - daysInMonth year month⟩ : Date).day by
          show _ < 32 - daysInMonth year month; omega)]
      have hsub1 : (⟨year, month + 1, 32 - daysInMonth year month⟩ : Date).day -
          (31 - daysInMonth year month) = 1 := by
        show 32 - daysInMonth year month - (31 - daysInMonth year month) = 1
        omega
      rw [hsub1]
      rw [prevDay_fom year (month + 1) (by omega)]
      have hm1' : month + 1 - 1 = month := by omega
      rw [hm1']
      have hmin : min 31 ((⟨year, month, daysInMonth year month⟩ : Date).day) =
          daysInMonth year month := by
        show min 31 (daysInMonth year month) = _
        omega
      rw [hmin]
    · rw [if_neg hm12]
      have hm' : month = 12 := by omega
      subst hm'
      have hday : ((⟨year + 1, 1, 32 - daysInMonth year 12⟩ : Date)).day =
          (31 - daysInMonth year 12) + 1 := by
        show 32 - daysInMonth year 12 = _
        omega
      rw [hday, subDays]
      rw [subDays_within (31 - daysInMonth year 12)
        ⟨year + 1, 1, 32 - daysInMonth year 12⟩
        (show 31 - daysInMonth year 12 <
          (⟨year + 1, 1, 32 - daysInMonth year 12⟩ : Date).day by
          show _ < 32 - daysInMonth year 12; omega)]
      have hsub1 : (⟨year + 1, 1, 32 - daysInMonth year 12⟩ : Date).day -
          (31 - daysInMonth year 12) = 1 := by
        show 32 - daysInMonth year 12 - (31 - daysInMonth year 12) = 1
        omega
      rw [hsub1]
      rw [prevDay_foy (year + 1)]
      have hy1 : year + 1 - 1 = year := by omega
      rw [hy1]
      have hmin : min 31 ((⟨year, 12, daysInMonth year 12⟩ : Date).day) =
          daysInMonth year 12 := by
        show min 31 (daysInMonth year 12) = _
        omega
      rw [hmin]

/-- C10: for every requested (month, year) with 1 <= month <= 12 and year >= 1,
the recently-closed-companies query window runs from the first day of the
preceding calendar month (December of the prior year when month = 1) to the
last calendar day of the requested month, correct for 28/29/30/31-day months
including leap-year February; consequently a company closed on any day of
month m lies in both the month-m window and the following month's window. -/
theorem c10_monthly_window (y m : Nat) (hy : 1 ≤ y) (hm1 : 1 ≤ m) (hm2 : m ≤ 12) :
    closedWindow m y =
      ((if m = 1 then ⟨y - 1, 12, 1⟩ else ⟨y, m - 1, 1⟩ : Date),
       (⟨y, m, daysInMonth y m⟩ : Date)) ∧
    ∀ d : Nat, 1 ≤ d → d ≤ daysInMonth y m →
      (dateLe (closedWindow m y).1 ⟨y, m, d⟩ ∧
        dateLe ⟨y, m, d⟩ (closedWindow m y).2) ∧
      (dateLe (closedWindow (if m = 12 then 1 else m + 1)
          (if m = 12 then y + 1 else y)).1 ⟨y, m, d⟩ ∧
        dateLe ⟨y, m, d⟩ (closedWindow (if m = 12 then 1 else m + 1)
          (if m = 12 then y + 1 else y)).2) := by
  refine ⟨closedWindow_eq y m hm1 hm2, ?_⟩
  intro d hd1 hd2
  constructor
  · rw [closedWindow_eq y m hm1 hm2]
    constructor
    · by_cases hm : m = 1
      · rw [if_pos hm]
        subst hm
        simp [dateLe]
        omega
      · rw [if_neg hm]
        simp [dateLe]
        omega
    · simp [dateLe]
      omega
  · by_cases hm12 : m = 12
    · rw [if_pos hm12, if_pos hm12]
      subst hm12
      rw [closedWindow_eq (y + 1) 1 (by omega) (by omega)]
      rw [if_pos rfl]
      constructor
      · simp [dateLe]
        omega
      · simp [dateLe]
    · rw [if_neg hm12, if_neg hm12]
      have hm2' : m + 1 ≤ 12 := by omega
      rw [closedWindow_eq y (m + 1) (by omega) hm2']
      rw [if_neg (by omega)]
      constructor
      · simp [dateLe]
        omega
      · simp [dateLe]

/-- C10 witness: February 2024 (leap year) spans January 1 to February 29,
and a company closed on 2024-02-15 falls in both the February and March 2024
windows. -/
theorem c10_witness :
    closedWindow 2 2024 = ((⟨2024, 1, 1⟩ : Date), (⟨2024, 2, 29⟩ : Date)) ∧
      (dateLe (closedWindow 2 2024).1 ⟨2024, 2, 15⟩ ∧
        dateLe ⟨2024, 2, 15⟩ (closedWindow 2 2024).2) ∧
      (dateLe (closedWindow 3 2024).1 ⟨2024, 2, 15⟩ ∧
        dateLe ⟨2024, 2, 15⟩ (closedWindow 3 2024).2) := by
  have h := c10_monthly_window 2024 2 (by decide) (by decide) (by decide)
  refine ⟨by rw [h.1]; rfl, ?_, ?_⟩
  · exact (h.2 15 (by decide) (by decide)).1
  · exact (h.2 15 (by decide) (by decide)).2

end DataEng
